import Mathlib

/-!
Shallow embedding of the mrgnlabs/stake-pool-tools pipeline scripts
(`scripts/upload_stats.py`, `scripts/prepare_epoch.py`,
`scripts/generate_metas.py`, `scripts/generate_all_metas.py`,
`scripts/generate_all_stats.py`).

Filesystem listings, blob-store listings, RPC answers and generator exit
codes are inputs to the embedded functions; each script's externally
visible behaviour (uploads, ACL grants, deletions, generator invocations,
skips, fatal exits) is returned as a trace of events.
-/

/-! ## Decimal-digit helpers shared by the filename patterns -/

/-- One character of a decimal digit, as tested by the character class
[0-9] in the scripts' regular expressions. -/
def isDigitCh (c : Char) : Bool := '0' ≤ c && c ≤ '9'

/-- Python int() applied to a non-empty string of decimal digits. -/
def digitsToNat (l : List Char) : Nat :=
  l.foldl (fun a c => a * 10 + (c.toNat - 48)) 0

/-- Does t begin with one arbitrary non-newline character followed by
"json"?  This is the tail ".json" of the patterns "stats_([0-9]+).json"
and "stake_pool_metas_([0-9]+).json": the dot is unescaped, so it matches
any single character except a newline. -/
def jsonTailOk : List Char → Bool
  | c :: rest => c != '\n' && List.isPrefixOf "json".data rest
  | [] => false

/-- Backtracking step of re.match for "([0-9]+).json": try the greedy
(longest) digit group first and shrink it until the rest of the pattern
matches.  ds is the maximal digit run, rest the characters after it. -/
def bestGroupLen (ds rest : List Char) : Nat → Option Nat
  | 0 => none
  | k + 1 =>
    if jsonTailOk (ds.drop (k + 1) ++ rest) then some (k + 1)
    else bestGroupLen ds rest k

/-- re.match of the pattern pre ++ "([0-9]+).json" against s: anchored at
the start of s, unanchored at the end, group converted with int(). -/
def matchEpochJson (pre : String) (s : String) : Option Nat :=
  if List.isPrefixOf pre.data s.data then
    let t := s.data.drop pre.data.length
    let ds := t.takeWhile isDigitCh
    let rest := t.dropWhile isDigitCh
    match bestGroupLen ds rest ds.length with
    | some k => some (digitsToNat (ds.take k))
    | none => none
  else none

/-- re.match of the pattern pre ++ "([0-9]+)" against s: anchored at the
start, greedy digit group, unanchored end. -/
def matchEpochTag (pre : String) (s : String) : Option Nat :=
  if List.isPrefixOf pre.data s.data then
    let ds := (s.data.drop pre.data.length).takeWhile isDigitCh
    if ds.isEmpty then none else some (digitsToNat ds)
  else none

/-- upload_stats.py line 22/27: re.match("stats_([0-9]+).json", f). -/
def statsFileEpoch (s : String) : Option Nat := matchEpochJson "stats_" s

/-- generate_all_stats.py line 34/36:
re.match("stake_pool_metas_([0-9]+).json", f). -/
def metasFileEpoch (s : String) : Option Nat :=
  matchEpochJson "stake_pool_metas_" s

/-- generate_all_metas.py line 31/33: re.match("epoch_([0-9]+)", d). -/
def epochDirEpoch (s : String) : Option Nat := matchEpochTag "epoch_" s

/-- Lexicographic comparison of character lists by code point, with a
proper prefix ordered first: the order Python uses to compare str
values. -/
def charListLe : List Char → List Char → Bool
  | [], _ => true
  | _ :: _, [] => false
  | a :: as, b :: bs =>
    if a < b then true else if b < a then false else charListLe as bs

/-- Python str comparison a <= b. -/
def strLe (a b : String) : Bool := charListLe a.data b.data

/-- Python list.sort() on strings: stable sort in lexicographic
code-point order. -/
def sortStrings (l : List String) : List String :=
  List.insertionSort (fun a b => strLe a b = true) l

/-! ## upload_stats.py -/

/-- upload_stats.py line 10. -/
def STAKE_POOL_STATS_DIR : String := "stake_pool_data"

/-- The manifest dict of upload_stats.py line 24. -/
structure Manifest where
  latest : Option Nat
  epochs : List Nat
deriving DecidableEq, Repr

/-- upload_stats.py lines 41-43: update "latest" to the running maximum
and append the epoch to "epochs". -/
def manifestStep (m : Manifest) (epoch : Nat) : Manifest :=
  { latest :=
      match m.latest with
      | none => some epoch
      | some l => if epoch > l then some epoch else some l
    epochs := m.epochs ++ [epoch] }

/-- Externally visible actions of upload_stats.py.  grantRead stands for
the pair acl.all().grant_read(); acl.save() that makes a blob
public-read.  nameErrorAbort is the unhandled NameError raised when the
final ACL statements reference the loop variable blob and the loop body
never ran. -/
inductive UpEvent where
  | uploadFile (blobName : String) : UpEvent
  | grantRead (blobName : String) : UpEvent
  | uploadManifestBlob (blobName : String) (latest : Option Nat)
      (epochs : List Nat) : UpEvent
  | nameErrorAbort : UpEvent
deriving DecidableEq, Repr

/-- upload_stats.py lines 26-43: the per-file loop.  Returns the emitted
events, the manifest dict after the loop, and the final value of the
loop-scoped variable blob (none when the body never ran). -/
def uploadLoop : List String → Manifest → Option String →
    List UpEvent × Manifest × Option String
  | [], m, lastBlob => ([], m, lastBlob)
  | f :: fs, m, lastBlob =>
    match statsFileEpoch f with
    | none => uploadLoop fs m lastBlob
    | some epoch =>
      let blobName := STAKE_POOL_STATS_DIR ++ "/" ++ f
      let r := uploadLoop fs (manifestStep m epoch) (some blobName)
      (UpEvent.uploadFile blobName :: UpEvent.grantRead blobName :: r.1, r.2)

/-- upload_stats.py main, lines 20-50, as a function of the output
directory listing (os.listdir(stats_dir)).  The listing is sorted, the
per-file loop runs, the manifest blob is uploaded, and then lines 49-50
run blob.acl.all().grant_read(); blob.acl.save() on the loop variable
blob: the last per-epoch stats blob if the loop ran, a NameError
otherwise. -/
def uploadStatsMain (listing : List String) : List UpEvent :=
  let files := sortStrings listing
  let r := uploadLoop files { latest := none, epochs := [] } none
  let manifestBlobName := STAKE_POOL_STATS_DIR ++ "/manifest.json"
  r.1 ++
    UpEvent.uploadManifestBlob manifestBlobName r.2.1.latest r.2.1.epochs ::
      (match r.2.2 with
       | some b => [UpEvent.grantRead b]
       | none => [UpEvent.nameErrorAbort])

/-- The manifest dict as uploaded by upload_stats.py for a given output
directory listing. -/
def manifestOf (listing : List String) : Manifest :=
  (uploadLoop (sortStrings listing) { latest := none, epochs := [] } none).2.1

/-! ## prepare_epoch.py: find_jito_snapshot -/

/-- prepare_epoch.py line 13. -/
def JITO_PREFERRED_WAREHOUSE : String := "ny-mainnet-warehouse-1"

/-- A blob reference discovered in the snapshot source bucket: object
name, size in bytes, and fetchable media link. -/
structure Blob where
  name : String
  size : Nat
  mediaLink : String
deriving DecidableEq, Repr

/-- Is needle a contiguous sublist of hay? -/
def listContainsSub (needle : List Char) : List Char → Bool
  | [] => needle.isEmpty
  | c :: rest => List.isPrefixOf needle (c :: rest) || listContainsSub needle rest

/-- Python substring membership needle in hay. -/
def strContains (hay needle : String) : Bool :=
  listContainsSub needle.data hay.data

/-- prepare_epoch.py lines 58-60: keep only candidates whose size
strictly exceeds 10_000_000_000 bytes. -/
def sizeFiltered (blobs : List Blob) : List Blob :=
  blobs.filter (fun b => 10000000000 < b.size)

/-- prepare_epoch.py lines 65-71: selected starts as the head of the
filtered list; the loop replaces it with the first candidate whose name
contains the preferred warehouse tag and notes whether one was found. -/
def selectSnapshotBlob (first : Blob) : List Blob → Blob × Bool
  | [] => (first, false)
  | b :: bs =>
    if strContains b.name JITO_PREFERRED_WAREHOUSE then (b, true)
    else selectSnapshotBlob first bs

/-- The characters after the last '/' of the input: cur accumulates the
current segment in reverse and is reset at each separator. -/
def lastSegAux (cur : List Char) : List Char → List Char
  | [] => cur.reverse
  | c :: rest => if c = '/' then lastSegAux [] rest else lastSegAux (c :: cur) rest

/-- Python s.split("/")[-1]. -/
def lastSegment (s : String) : String := String.mk (lastSegAux [] s.data)

/-- prepare_epoch.py find_jito_snapshot, lines 54-75, as a function of
the regex-matched bucket listing (the result of find_blob_in_bucket,
which is straightforward storage I/O).  none models the
no-snapshot-found failure path, print + sys.exit(1). -/
def findJitoSnapshot (found : List Blob) : Option (String × String) :=
  let survivors := sizeFiltered found
  match survivors with
  | [] => none
  | first :: rest =>
    let sel := selectSnapshotBlob first (first :: rest)
    some (lastSegment sel.1.name, sel.1.mediaLink)

/-! ## The derived-artifact purge shared by generate_metas.py (lines
35-44) and generate_all_metas.py (lines 47-56) -/

/-- What the filesystem holds at one path: nothing, a regular file, or a
directory. -/
inductive FsEntry where
  | absent : FsEntry
  | file : FsEntry
  | dir : FsEntry
deriving DecidableEq, Repr

/-- The transient derived artifacts of one epoch workspace: the rocksdb
ledger-state directory, the stake-pools.accounts directory, and the
unpacked genesis.bin file. -/
structure Workspace where
  rocksdb : FsEntry
  accounts : FsEntry
  genesisBin : FsEntry
deriving DecidableEq, Repr

deriving instance DecidableEq for Except

/-- shutil.rmtree: succeeds only on a directory. -/
def shutilRmtree : FsEntry → Except String FsEntry
  | FsEntry.dir => Except.ok FsEntry.absent
  | _ => Except.error "NotADirectoryError"

/-- os.remove: succeeds only on a regular file. -/
def osRemove : FsEntry → Except String FsEntry
  | FsEntry.file => Except.ok FsEntry.absent
  | _ => Except.error "FileNotFoundError"

/-- The delete-previous-artifacts block: rmtree the rocksdb path if it
exists and is a directory, rmtree the accounts path if it exists and is
a directory, remove genesis.bin if it is a regular file.  Every removal
is guarded exactly as in the scripts; an error is an uncaught Python
exception. -/
def resetDerivedE (w : Workspace) : Except String Workspace := do
  let r ← if w.rocksdb = FsEntry.dir then shutilRmtree w.rocksdb
          else pure w.rocksdb
  let a ← if w.accounts = FsEntry.dir then shutilRmtree w.accounts
          else pure w.accounts
  let g ← if w.genesisBin = FsEntry.file then osRemove w.genesisBin
          else pure w.genesisBin
  pure { rocksdb := r, accounts := a, genesisBin := g }

/-- The workspace state the delete-previous-artifacts block leaves
behind. -/
def resetDerived (w : Workspace) : Workspace :=
  { rocksdb := if w.rocksdb = FsEntry.dir then FsEntry.absent else w.rocksdb
    accounts := if w.accounts = FsEntry.dir then FsEntry.absent else w.accounts
    genesisBin :=
      if w.genesisBin = FsEntry.file then FsEntry.absent else w.genesisBin }

/-! ## generate_all_metas.py -/

/-- The external world generate_all_metas.py interacts with: per-path
existence, the derived artifacts of each epoch directory, presence of
the generator binary at its build output path, the RPC answer
get_last_slot_in_epoch, and the exit code each generator run would
return. -/
structure MetaEnv where
  pathExists : String → Bool
  derived : String → Workspace
  binExists : Bool
  lastSlotInEpoch : Nat → Nat
  exitCode : Nat → Int

/-- Externally visible actions of generate_all_metas.py.  invoke records
the epoch-directory name, the parsed epoch, the snapshot slot passed via
--snapshot-slot, and the subprocess exit status.  reportGeneratorFailed
is the failure report the specification calls GeneratorFailedError; it
is part of the event vocabulary so that its absence can be stated. -/
inductive MEvent where
  | skipUnsupported (epoch : Nat) : MEvent
  | skipMissing (epoch : Nat) : MEvent
  | deleteRocksdb (dirName : String) : MEvent
  | deleteAccounts (dirName : String) : MEvent
  | deleteGenesis (dirName : String) : MEvent
  | exitBinMissing : MEvent
  | invoke (dirName : String) (epoch slot : Nat) (code : Int) : MEvent
  | reportGeneratorFailed (epoch : Nat) : MEvent
deriving DecidableEq, Repr

/-- The directory an event touches, when it touches one. -/
def MEvent.dirName? : MEvent → Option String
  | MEvent.deleteRocksdb d => some d
  | MEvent.deleteAccounts d => some d
  | MEvent.deleteGenesis d => some d
  | MEvent.invoke d _ _ _ => some d
  | _ => none

/-- generate_all_metas.py lines 47-56: the guarded removals, as
events. -/
def metaDeleteEvents (d : String) (w : Workspace) : List MEvent :=
  (if w.rocksdb = FsEntry.dir then [MEvent.deleteRocksdb d] else []) ++
    (if w.accounts = FsEntry.dir then [MEvent.deleteAccounts d] else []) ++
      (if w.genesisBin = FsEntry.file then [MEvent.deleteGenesis d] else [])

/-- generate_all_metas.py lines 32-93: the per-directory loop over the
already-sorted listing.  A directory name that does not match
epoch_([0-9]+) is passed over silently; an epoch below 516 is skipped;
a missing workspace is skipped; otherwise stale artifacts are deleted,
a missing generator binary aborts the whole run with sys.exit(1), and
otherwise the generator is invoked and the loop continues. -/
def metaBatchGo (env : MetaEnv) : List String → List MEvent
  | [] => []
  | d :: ds =>
    match epochDirEpoch d with
    | none => metaBatchGo env ds
    | some epoch =>
      if epoch < 516 then MEvent.skipUnsupported epoch :: metaBatchGo env ds
      else if !env.pathExists d then
        MEvent.skipMissing epoch :: metaBatchGo env ds
      else
        let dels := metaDeleteEvents d (env.derived d)
        if !env.binExists then dels ++ [MEvent.exitBinMissing]
        else
          dels ++
            MEvent.invoke d epoch (env.lastSlotInEpoch epoch)
                (env.exitCode epoch) ::
              metaBatchGo env ds

/-- generate_all_metas.py main, lines 29-93, as a function of
os.listdir of the data directory: sort the listing, then run the
loop. -/
def metaBatch (env : MetaEnv) (dirListing : List String) : List MEvent :=
  metaBatchGo env (sortStrings dirListing)

/-- The epochs whose generator invocation actually ran, in run order. -/
def invokedEpochs (trace : List MEvent) : List Nat :=
  trace.filterMap fun ev =>
    match ev with
    | MEvent.invoke _ e _ _ => some e
    | _ => none

/-- The epoch-directory names whose generator invocation actually ran,
in run order. -/
def invokedDirs (trace : List MEvent) : List String :=
  trace.filterMap fun ev =>
    match ev with
    | MEvent.invoke d _ _ _ => some d
    | _ => none

/-- Forget subprocess exit codes, which the scripts never read. -/
def scrubExitM (ev : MEvent) : MEvent :=
  match ev with
  | MEvent.invoke d e s _ => MEvent.invoke d e s 0
  | _ => ev

/-! ## generate_all_stats.py -/

/-- The metas/output directory; the script computes it as the realpath
of ../output relative to the script, modelled here as a fixed abstract
absolute path. -/
def METAS_DIR : String := "/repo/output"

/-- The stats generator binary's build output path,
../target/release/generate-normalized-stats, modelled as a fixed
abstract absolute path. -/
def STATS_BIN_PATH : String := "/repo/target/release/generate-normalized-stats"

/-- generate_all_stats.py lines 49-51: the per-epoch output path
../output/stats_<epoch>.json. -/
def statsOutPath (epoch : Nat) : String :=
  METAS_DIR ++ "/stats_" ++ Nat.repr epoch ++ ".json"

/-- generate_all_stats.py lines 58-68: the argument vector handed to
subprocess.run, with --use-live-price-fallback appended exactly when
is_latest holds. -/
def statsCmd (epoch : Nat) (isLatest : Bool) : List String :=
  [STATS_BIN_PATH, "--metas-dir", METAS_DIR, "--out-path",
      statsOutPath epoch, "--epoch", Nat.repr epoch] ++
    (if isLatest then ["--use-live-price-fallback"] else [])

/-- The external world generate_all_stats.py interacts with: the live
epoch returned by get_epoch_info once at batch start, presence of the
generator binary, and the exit code each generator run would return. -/
structure StatsEnv where
  liveEpoch : Nat
  binExists : Bool
  exitCode : Nat → Int

/-- Externally visible actions of generate_all_stats.py.
reportGeneratorFailed is the failure report the specification calls
GeneratorFailedError; it is part of the event vocabulary so that its
absence can be stated. -/
inductive SEvent where
  | exitBinMissing : SEvent
  | invoke (epoch : Nat) (cmd : List String) (code : Int) : SEvent
  | reportGeneratorFailed (epoch : Nat) : SEvent
deriving DecidableEq, Repr

/-- generate_all_stats.py lines 35-74: the per-file loop over the
already-sorted listing of the output directory.  A file name that does
not match stake_pool_metas_([0-9]+).json is passed over; a missing
binary aborts the run with sys.exit(1); otherwise the generator is
invoked with is_latest set exactly when target_epoch == live_epoch - 1
(Python int arithmetic, hence the comparison over Int). -/
def statsBatchGo (env : StatsEnv) : List String → List SEvent
  | [] => []
  | f :: fs =>
    match metasFileEpoch f with
    | none => statsBatchGo env fs
    | some epoch =>
      if !env.binExists then [SEvent.exitBinMissing]
      else
        let isLatest := ((epoch : Int) == (env.liveEpoch : Int) - 1)
        SEvent.invoke epoch (statsCmd epoch isLatest) (env.exitCode epoch) ::
          statsBatchGo env fs

/-- generate_all_stats.py main, lines 14-74, as a function of os.listdir
of the output directory: query the live epoch once, sort the listing,
then run the loop. -/
def statsBatch (env : StatsEnv) (listing : List String) : List SEvent :=
  statsBatchGo env (sortStrings listing)

/-- Forget subprocess exit codes, which the scripts never read. -/
def scrubExitS (ev : SEvent) : SEvent :=
  match ev with
  | SEvent.invoke e cmd _ => SEvent.invoke e cmd 0
  | _ => ev

/-! ## Concrete fixtures used by witnesses and counterexamples -/

/-- A 5 GB partial-snapshot candidate. -/
def exBlobSmall : Blob :=
  { name := "517/wh-a/snapshot-250000000-AAA.tar.zst"
    size := 5000000000
    mediaLink := "url-small" }

/-- An 11 GB candidate from a non-preferred warehouse. -/
def exBlobOther : Blob :=
  { name := "517/other-warehouse/snapshot-250000000-BBB.tar.zst"
    size := 11000000000
    mediaLink := "url-other" }

/-- A 12 GB candidate from the preferred warehouse. -/
def exBlobPref : Blob :=
  { name := "517/ny-mainnet-warehouse-1/snapshot-250000000-CCC.tar.zst"
    size := 12000000000
    mediaLink := "url-pref" }

/-- A candidate whose size is exactly the 10 GB floor. -/
def exBlobTenGB : Blob :=
  { name := "517/wh-b/snapshot-250000000-DDD.tar.zst"
    size := 10000000000
    mediaLink := "url-ten" }

/-- A benign batch environment: every path exists, no stale derived
artifacts, the generator binary is present, every generator run exits
0. -/
def metaEnvA : MetaEnv :=
  { pathExists := fun _ => true
    derived := fun _ => { rocksdb := FsEntry.absent, accounts := FsEntry.absent,
                          genesisBin := FsEntry.absent }
    binExists := true
    lastSlotInEpoch := fun e => 432000 * e + 431999
    exitCode := fun _ => 0 }

/-- A batch environment in which every generator run exits 7. -/
def metaEnvFail : MetaEnv :=
  { pathExists := fun _ => true
    derived := fun _ => { rocksdb := FsEntry.absent, accounts := FsEntry.absent,
                          genesisBin := FsEntry.absent }
    binExists := true
    lastSlotInEpoch := fun e => 432000 * e + 431999
    exitCode := fun _ => 7 }

/-- A stats batch environment: the chain is currently in epoch 518, the
binary is present, every run exits 0. -/
def statsEnvA : StatsEnv :=
  { liveEpoch := 518
    binExists := true
    exitCode := fun _ => 0 }

example : statsFileEpoch "stats_516.json" = some 516 := by decide
example : statsFileEpoch "stats_.json" = none := by decide
example : statsFileEpoch "stats_123json" = some 12 := by decide
example : statsFileEpoch "stats_516.json.bak" = some 516 := by decide
example : statsFileEpoch "xstats_516.json" = none := by decide
example : epochDirEpoch "epoch_517" = some 517 := by decide
example : epochDirEpoch "epoch_" = none := by decide
example : metasFileEpoch "stake_pool_metas_517.json" = some 517 := by decide
example : sortStrings ["epoch_517", "epoch_1000"] = ["epoch_1000", "epoch_517"] := by decide
example :
    manifestOf ["stats_519.json", "stats_516.json", "stats_517.json"] =
      { latest := some 519, epochs := [516, 517, 519] } := by decide
example :
    findJitoSnapshot [exBlobSmall, exBlobOther, exBlobPref] =
      some ("snapshot-250000000-CCC.tar.zst", "url-pref") := by decide
example :
    findJitoSnapshot [exBlobPref, exBlobOther, exBlobSmall] =
      some ("snapshot-250000000-CCC.tar.zst", "url-pref") := by decide
example :
    findJitoSnapshot [exBlobSmall, exBlobOther] =
      some ("snapshot-250000000-BBB.tar.zst", "url-other") := by decide
example : findJitoSnapshot [exBlobTenGB] = none := by decide
example :
    metaBatch metaEnvA ["epoch_517", "epoch_1000"] =
      [MEvent.invoke "epoch_1000" 1000 432431999 0,
       MEvent.invoke "epoch_517" 517 223775999 0] := by decide
example :
    statsBatch statsEnvA ["stake_pool_metas_517.json"] =
      [SEvent.invoke 517 (statsCmd 517 true) 0] := by decide
example :
    statsBatch statsEnvA ["stake_pool_metas_516.json"] =
      [SEvent.invoke 516 (statsCmd 516 false) 0] := by decide
example :
    uploadStatsMain ["stats_516.json"] =
      [UpEvent.uploadFile "stake_pool_data/stats_516.json",
       UpEvent.grantRead "stake_pool_data/stats_516.json",
       UpEvent.uploadManifestBlob "stake_pool_data/manifest.json" (some 516) [516],
       UpEvent.grantRead "stake_pool_data/stats_516.json"] := by decide
example :
    uploadStatsMain [] =
      [UpEvent.uploadManifestBlob "stake_pool_data/manifest.json" none [],
       UpEvent.nameErrorAbort] := by decide

/-! ## Order properties of the Python string comparison -/

theorem charListLe_total : ∀ as bs, charListLe as bs = true ∨ charListLe bs as = true
  | [], _ => Or.inl rfl
  | _ :: _, [] => Or.inr rfl
  | a :: as, b :: bs => by
    rcases lt_trichotomy a b with h | h | h
    · left; simp [charListLe, h]
    · subst h
      rcases charListLe_total as bs with ih | ih
      · left; simp [charListLe, lt_irrefl, ih]
      · right; simp [charListLe, lt_irrefl, ih]
    · right; simp [charListLe, h]

theorem charListLe_trans :
    ∀ as bs cs, charListLe as bs = true → charListLe bs cs = true →
      charListLe as cs = true
  | [], _, _, _, _ => rfl
  | _ :: _, [], _, hab, _ => by simp [charListLe] at hab
  | _ :: _, _ :: _, [], _, hbc => by simp [charListLe] at hbc
  | a :: as, b :: bs, c :: cs, hab, hbc => by
    by_cases h1 : a < b
    · by_cases h2 : b < c
      · simp [charListLe, lt_trans h1 h2]
      · by_cases h3 : c < b
        · simp [charListLe, h2, h3] at hbc
        · have h4 : b = c := le_antisymm (not_lt.mp h3) (not_lt.mp h2)
          subst h4
          simp [charListLe, h1]
    · by_cases h2 : b < a
      · simp [charListLe, h1, h2] at hab
      · have h5 : a = b := le_antisymm (not_lt.mp h2) (not_lt.mp h1)
        subst h5
        by_cases h3 : a < c
        · simp [charListLe, h3]
        · by_cases h4 : c < a
          · simp [charListLe, h3, h4] at hbc
          · have h6 : a = c := le_antisymm (not_lt.mp h4) (not_lt.mp h3)
            subst h6
            have hab' : charListLe as bs = true := by
              simpa [charListLe, lt_irrefl] using hab
            have hbc' : charListLe bs cs = true := by
              simpa [charListLe, lt_irrefl] using hbc
            simpa [charListLe, lt_irrefl] using
              charListLe_trans as bs cs hab' hbc'

instance strLeIsTotal : IsTotal String (fun a b => strLe a b = true) :=
  ⟨fun a b => charListLe_total a.data b.data⟩

instance strLeIsTrans : IsTrans String (fun a b => strLe a b = true) :=
  ⟨fun a b c => charListLe_trans a.data b.data c.data⟩

theorem mem_sortStrings {s : String} {l : List String} :
    s ∈ sortStrings l ↔ s ∈ l :=
  List.mem_insertionSort _

theorem sortStrings_sorted (l : List String) :
    (sortStrings l).Sorted (fun a b => strLe a b = true) :=
  List.sorted_insertionSort _ l

theorem sortStrings_perm (l : List String) : List.Perm (sortStrings l) l :=
  List.perm_insertionSort _ l

/-! ## Lemmas about the upload_stats.py manifest fold -/

theorem uploadLoop_manifest :
    ∀ (fs : List String) (m : Manifest) (lb : Option String),
      (uploadLoop fs m lb).2.1 = (fs.filterMap statsFileEpoch).foldl manifestStep m
  | [], _, _ => rfl
  | f :: fs, m, lb => by
    cases h : statsFileEpoch f with
    | none =>
      simp [uploadLoop, h, List.filterMap_cons, uploadLoop_manifest fs m lb]
    | some e =>
      simp [uploadLoop, h, List.filterMap_cons,
        uploadLoop_manifest fs (manifestStep m e) (some (STAKE_POOL_STATS_DIR ++ "/" ++ f))]

theorem foldl_manifestStep_epochs :
    ∀ (es : List Nat) (m : Manifest),
      (es.foldl manifestStep m).epochs = m.epochs ++ es
  | [], m => by simp
  | e :: es, m => by
    rw [List.foldl_cons, foldl_manifestStep_epochs es (manifestStep m e)]
    simp [manifestStep]

theorem manifestStep_latest :
    ∀ (m : Manifest) (e : Nat),
      ∃ v, (manifestStep m e).latest = some v ∧ e ≤ v ∧
        (∀ x, m.latest = some x → x ≤ v) ∧ (v = e ∨ m.latest = some v)
  | ⟨none, eps⟩, e => ⟨e, rfl, le_refl e, by simp, Or.inl rfl⟩
  | ⟨some l, eps⟩, e => by
    by_cases h : e > l
    · refine ⟨e, by simp [manifestStep, h], le_refl e, ?_, Or.inl rfl⟩
      intro x hx
      have hx' : l = x := Option.some.inj hx
      subst hx'
      exact le_of_lt h
    · refine ⟨l, by simp [manifestStep, h], not_lt.mp h, ?_, Or.inr rfl⟩
      intro x hx
      have hx' : l = x := Option.some.inj hx
      subst hx'
      exact le_refl _

theorem foldl_manifestStep_latest_le :
    ∀ (es : List Nat) (m : Manifest) (l : Nat),
      (es.foldl manifestStep m).latest = some l →
        (∀ e ∈ es, e ≤ l) ∧ (∀ x, m.latest = some x → x ≤ l) ∧
          (l ∈ es ∨ m.latest = some l)
  | [], m, l, h => by
    simp only [List.foldl_nil] at h
    exact ⟨by simp, fun x hx => by
      rw [h] at hx
      exact le_of_eq (Option.some.inj hx).symm, Or.inr h⟩
  | e :: es, m, l, h => by
    rw [List.foldl_cons] at h
    obtain ⟨he, hm, hmem⟩ := foldl_manifestStep_latest_le es (manifestStep m e) l h
    obtain ⟨v, hv, hev, hxv, hve⟩ := manifestStep_latest m e
    have hvl : v ≤ l := hm v hv
    refine ⟨?_, ?_, ?_⟩
    · intro e' he'
      rcases List.mem_cons.mp he' with rfl | h'
      · exact le_trans hev hvl
      · exact he e' h'
    · intro x hx
      exact le_trans (hxv x hx) hvl
    · rcases hmem with h' | h'
      · exact Or.inl (List.mem_cons_of_mem _ h')
      · rw [hv] at h'
        have hvl' : v = l := Option.some.inj h'
        subst hvl'
        rcases hve with rfl | h''
        · exact Or.inl (List.mem_cons_self _ _)
        · exact Or.inr h''

theorem foldl_manifestStep_latest_none :
    ∀ (es : List Nat) (m : Manifest),
      (es.foldl manifestStep m).latest = none ↔ (m.latest = none ∧ es = [])
  | [], m => by simp
  | e :: es, m => by
    rw [List.foldl_cons]
    constructor
    · intro h
      obtain ⟨v, hv, _⟩ := manifestStep_latest m e
      have h2 := (foldl_manifestStep_latest_none es (manifestStep m e)).mp h
      rw [h2.1] at hv
      cases hv
    · intro h
      cases h.2

theorem uploadLoop_eq_of_no_match :
    ∀ (fs : List String) (m : Manifest) (lb : Option String),
      (∀ f ∈ fs, statsFileEpoch f = none) → uploadLoop fs m lb = ([], m, lb)
  | [], _, _, _ => rfl
  | f :: fs, m, lb, h => by
    have h0 : statsFileEpoch f = none := h f (List.mem_cons_self f fs)
    simp [uploadLoop, h0,
      uploadLoop_eq_of_no_match fs m lb (fun g hg => h g (List.mem_cons_of_mem f hg))]

/-! ## Lemmas about the snapshot selection of prepare_epoch.py -/

theorem selectSnapshotBlob_eq :
    ∀ (first : Blob) (l : List Blob),
      selectSnapshotBlob first l =
        match l.find? (fun b => strContains b.name JITO_PREFERRED_WAREHOUSE) with
        | some b => (b, true)
        | none => (first, false)
  | _, [] => rfl
  | first, b :: bs => by
    cases h : strContains b.name JITO_PREFERRED_WAREHOUSE with
    | true => simp [selectSnapshotBlob, List.find?, h]
    | false => simp [selectSnapshotBlob, List.find?, h, selectSnapshotBlob_eq first bs]

theorem find?_eq_some_of_unique {α : Type} {p : α → Bool} {x : α} :
    ∀ {l : List α}, x ∈ l → p x = true →
      (∀ y ∈ l, p y = true → y = x) → l.find? p = some x
  | [], hx, _, _ => absurd hx (List.not_mem_nil x)
  | a :: l, hx, hpx, hu => by
    cases h : p a with
    | true =>
      have ha : a = x := hu a (List.mem_cons_self a l) h
      subst ha
      simp [List.find?, h]
    | false =>
      have hxl : x ∈ l := by
        rcases List.mem_cons.mp hx with rfl | h'
        · rw [hpx] at h
          cases h
        · exact h'
      simpa [List.find?, h] using
        find?_eq_some_of_unique hxl hpx (fun y hy => hu y (List.mem_cons_of_mem a hy))

theorem mem_sizeFiltered {b : Blob} {l : List Blob} :
    b ∈ sizeFiltered l ↔ b ∈ l ∧ 10000000000 < b.size := by
  simp [sizeFiltered, List.mem_filter]

/-! ## Lemmas about the generate_all_metas.py batch loop -/

/-! ## Lemmas about the generate_all_metas.py batch loop -/

theorem mem_metaDeleteEvents {ev : MEvent} {d : String} {w : Workspace}
    (h : ev ∈ metaDeleteEvents d w) :
    ev = MEvent.deleteRocksdb d ∨ ev = MEvent.deleteAccounts d ∨
      ev = MEvent.deleteGenesis d := by
  simp only [metaDeleteEvents] at h
  split_ifs at h <;> simp_all <;> tauto

theorem invokedDirs_metaDeleteEvents (d : String) (w : Workspace) :
    invokedDirs (metaDeleteEvents d w) = [] := by
  simp only [metaDeleteEvents, invokedDirs]
  split_ifs <;> rfl

theorem metaBatchGo_dirName {env : MetaEnv} :
    ∀ {l : List String} {ev : MEvent} {d : String},
      ev ∈ metaBatchGo env l → ev.dirName? = some d →
      ∃ e, d ∈ l ∧ epochDirEpoch d = some e ∧ ¬ e < 516 ∧
        env.pathExists d = true := by
  intro l
  induction l with
  | nil => intro ev d h; cases h
  | cons d' ds ih =>
    intro ev d h hd
    have lift : (∃ e, d ∈ ds ∧ epochDirEpoch d = some e ∧ ¬ e < 516 ∧
        env.pathExists d = true) →
        ∃ e, d ∈ d' :: ds ∧ epochDirEpoch d = some e ∧ ¬ e < 516 ∧
          env.pathExists d = true := by
      rintro ⟨e, h1, h2, h3, h4⟩
      exact ⟨e, List.mem_cons_of_mem _ h1, h2, h3, h4⟩
    cases hp : epochDirEpoch d' with
    | none =>
      simp only [metaBatchGo, hp] at h
      exact lift (ih h hd)
    | some ep =>
      by_cases h516 : ep < 516
      · simp only [metaBatchGo, hp, if_pos h516] at h
        rcases List.mem_cons.mp h with rfl | h2
        · simp [MEvent.dirName?] at hd
        · exact lift (ih h2 hd)
      · cases hex : env.pathExists d' with
        | false =>
          simp [metaBatchGo, hp, h516, hex] at h
          rcases h with rfl | h2
          · simp [MEvent.dirName?] at hd
          · exact lift (ih h2 hd)
        | true =>
          cases hbin : env.binExists with
          | false =>
            simp [metaBatchGo, hp, h516, hex, hbin] at h
            rcases h with h2 | rfl
            · rcases mem_metaDeleteEvents h2 with rfl | rfl | rfl <;>
                (simp only [MEvent.dirName?, Option.some.injEq] at hd
                 subst hd
                 exact ⟨ep, List.mem_cons_self _ _, hp, h516, hex⟩)
            · simp [MEvent.dirName?] at hd
          | true =>
            simp [metaBatchGo, hp, h516, hex, hbin] at h
            rcases h with h2 | rfl | h3
            · rcases mem_metaDeleteEvents h2 with rfl | rfl | rfl <;>
                (simp only [MEvent.dirName?, Option.some.injEq] at hd
                 subst hd
                 exact ⟨ep, List.mem_cons_self _ _, hp, h516, hex⟩)
            · simp only [MEvent.dirName?, Option.some.injEq] at hd
              subst hd
              exact ⟨ep, List.mem_cons_self _ _, hp, h516, hex⟩
            · exact lift (ih h3 hd)

theorem invokedDirs_append (t1 t2 : List MEvent) :
    invokedDirs (t1 ++ t2) = invokedDirs t1 ++ invokedDirs t2 :=
  List.filterMap_append t1 t2 _

theorem metaBatchGo_mem_lift {env : MetaEnv} (hbin : env.binExists = true)
    {ds : List String} {ev : MEvent} (d' : String)
    (h : ev ∈ metaBatchGo env ds) : ev ∈ metaBatchGo env (d' :: ds) := by
  cases hp : epochDirEpoch d' with
  | none => simpa only [metaBatchGo, hp] using h
  | some ep =>
    by_cases h516 : ep < 516
    · simp only [metaBatchGo, hp, if_pos h516]
      exact List.mem_cons_of_mem _ h
    · cases hex : env.pathExists d' with
      | false =>
        simp [metaBatchGo, hp, h516, hex]
        exact Or.inr h
      | true =>
        simp [metaBatchGo, hp, h516, hex, hbin]
        exact Or.inr (Or.inr h)

theorem metaBatchGo_invoke_mem {env : MetaEnv} :
    ∀ {l : List String} {d : String} {e s : Nat} {c : Int},
      MEvent.invoke d e s c ∈ metaBatchGo env l →
      d ∈ l ∧ epochDirEpoch d = some e ∧ ¬ e < 516 ∧ env.pathExists d = true ∧
        env.binExists = true ∧ s = env.lastSlotInEpoch e ∧ c = env.exitCode e := by
  intro l
  induction l with
  | nil => intro d e s c h; cases h
  | cons d' ds ih =>
    intro d e s c h
    have lift : (d ∈ ds ∧ epochDirEpoch d = some e ∧ ¬ e < 516 ∧
        env.pathExists d = true ∧ env.binExists = true ∧
        s = env.lastSlotInEpoch e ∧ c = env.exitCode e) →
        (d ∈ d' :: ds ∧ epochDirEpoch d = some e ∧ ¬ e < 516 ∧
          env.pathExists d = true ∧ env.binExists = true ∧
          s = env.lastSlotInEpoch e ∧ c = env.exitCode e) := by
      rintro ⟨h1, hrest⟩
      exact ⟨List.mem_cons_of_mem _ h1, hrest⟩
    cases hp : epochDirEpoch d' with
    | none =>
      simp only [metaBatchGo, hp] at h
      exact lift (ih h)
    | some ep =>
      by_cases h516 : ep < 516
      · simp only [metaBatchGo, hp, if_pos h516] at h
        rcases List.mem_cons.mp h with heq | h2
        · cases heq
        · exact lift (ih h2)
      · cases hex : env.pathExists d' with
        | false =>
          simp [metaBatchGo, hp, h516, hex] at h
          exact lift (ih h)
        | true =>
          by_cases hbin : env.binExists = true
          · simp [metaBatchGo, hp, h516, hex, hbin] at h
            rcases h with h2 | h2 | h2
            · rcases mem_metaDeleteEvents h2 with h3 | h3 | h3 <;> cases h3
            · obtain ⟨rfl, rfl, rfl, rfl⟩ := h2
              exact ⟨List.mem_cons_self _ _, hp, h516, hex, hbin, rfl, rfl⟩
            · exact lift (ih h2)
          · simp only [Bool.not_eq_true] at hbin
            simp [metaBatchGo, hp, h516, hex, hbin] at h
            rcases mem_metaDeleteEvents h with h2 | h2 | h2 <;> cases h2

theorem metaBatchGo_invoke_of {env : MetaEnv} (hbin : env.binExists = true) :
    ∀ {l : List String} {d : String} {e : Nat},
      d ∈ l → epochDirEpoch d = some e → ¬ e < 516 → env.pathExists d = true →
      MEvent.invoke d e (env.lastSlotInEpoch e) (env.exitCode e) ∈
        metaBatchGo env l := by
  intro l
  induction l with
  | nil => intro d e h; cases h
  | cons d' ds ih =>
    intro d e hmem hp h516 hex
    rcases List.mem_cons.mp hmem with rfl | h2
    · simp [metaBatchGo, hp, h516, hex, hbin]
    · exact metaBatchGo_mem_lift hbin d' (ih h2 hp h516 hex)

theorem metaBatchGo_skip_mem {env : MetaEnv} (hbin : env.binExists = true) :
    ∀ {l : List String} {d : String} {e : Nat},
      d ∈ l → epochDirEpoch d = some e → e < 516 →
      MEvent.skipUnsupported e ∈ metaBatchGo env l := by
  intro l
  induction l with
  | nil => intro d e h; cases h
  | cons d' ds ih =>
    intro d e hmem hp h516
    rcases List.mem_cons.mp hmem with rfl | h2
    · simp only [metaBatchGo, hp, if_pos h516]
      exact List.mem_cons_self _ _
    · exact metaBatchGo_mem_lift hbin d' (ih h2 hp h516)

theorem metaBatchGo_no_report (env : MetaEnv) :
    ∀ (l : List String) (e : Nat),
      MEvent.reportGeneratorFailed e ∉ metaBatchGo env l := by
  intro l
  induction l with
  | nil => intro e h; cases h
  | cons d' ds ih =>
    intro e h
    cases hp : epochDirEpoch d' with
    | none =>
      simp only [metaBatchGo, hp] at h
      exact ih e h
    | some ep =>
      by_cases h516 : ep < 516
      · simp only [metaBatchGo, hp, if_pos h516] at h
        rcases List.mem_cons.mp h with heq | h2
        · cases heq
        · exact ih e h2
      · cases hex : env.pathExists d' with
        | false =>
          simp [metaBatchGo, hp, h516, hex] at h
          exact ih e h
        | true =>
          cases hbin : env.binExists with
          | false =>
            simp [metaBatchGo, hp, h516, hex, hbin] at h
            rcases mem_metaDeleteEvents h with h2 | h2 | h2 <;> cases h2
          | true =>
            simp [metaBatchGo, hp, h516, hex, hbin] at h
            rcases h with h2 | h2
            · rcases mem_metaDeleteEvents h2 with h3 | h3 | h3 <;> cases h3
            · exact ih e h2

theorem metaBatchGo_scrub (env : MetaEnv) (f g : Nat → Int) :
    ∀ l : List String,
      (metaBatchGo { env with exitCode := f } l).map scrubExitM =
        (metaBatchGo { env with exitCode := g } l).map scrubExitM := by
  intro l
  induction l with
  | nil => rfl
  | cons d' ds ih =>
    cases hp : epochDirEpoch d' with
    | none =>
      simp only [metaBatchGo, hp]
      exact ih
    | some ep =>
      by_cases h516 : ep < 516
      · simp only [metaBatchGo, hp, if_pos h516, List.map_cons]
        rw [ih]
      · by_cases hex : env.pathExists d' = true
        · by_cases hbin : env.binExists = true
          · have htrf : metaBatchGo { env with exitCode := f } (d' :: ds) =
                metaDeleteEvents d' (env.derived d') ++
                  MEvent.invoke d' ep (env.lastSlotInEpoch ep) (f ep) ::
                    metaBatchGo { env with exitCode := f } ds := by
              simp [metaBatchGo, hp, h516, hex, hbin]
            have htrg : metaBatchGo { env with exitCode := g } (d' :: ds) =
                metaDeleteEvents d' (env.derived d') ++
                  MEvent.invoke d' ep (env.lastSlotInEpoch ep) (g ep) ::
                    metaBatchGo { env with exitCode := g } ds := by
              simp [metaBatchGo, hp, h516, hex, hbin]
            rw [htrf, htrg, List.map_append, List.map_append, List.map_cons,
              List.map_cons, ih]
            rfl
          · simp only [Bool.not_eq_true] at hbin
            have htrf : metaBatchGo { env with exitCode := f } (d' :: ds) =
                metaDeleteEvents d' (env.derived d') ++
                  [MEvent.exitBinMissing] := by
              simp [metaBatchGo, hp, h516, hex, hbin]
            have htrg : metaBatchGo { env with exitCode := g } (d' :: ds) =
                metaDeleteEvents d' (env.derived d') ++
                  [MEvent.exitBinMissing] := by
              simp [metaBatchGo, hp, h516, hex, hbin]
            rw [htrf, htrg]
        · simp only [Bool.not_eq_true] at hex
          have htrf : metaBatchGo { env with exitCode := f } (d' :: ds) =
              MEvent.skipMissing ep ::
                metaBatchGo { env with exitCode := f } ds := by
            simp [metaBatchGo, hp, h516, hex]
          have htrg : metaBatchGo { env with exitCode := g } (d' :: ds) =
              MEvent.skipMissing ep ::
                metaBatchGo { env with exitCode := g } ds := by
            simp [metaBatchGo, hp, h516, hex]
          rw [htrf, htrg, List.map_cons, List.map_cons, ih]

theorem invokedDirs_metaBatchGo_sublist (env : MetaEnv) :
    ∀ l : List String, (invokedDirs (metaBatchGo env l)).Sublist l := by
  intro l
  induction l with
  | nil => simp [metaBatchGo, invokedDirs]
  | cons d' ds ih =>
    cases hp : epochDirEpoch d' with
    | none =>
      simp only [metaBatchGo, hp]
      exact List.Sublist.cons d' ih
    | some ep =>
      by_cases h516 : ep < 516
      · simp only [metaBatchGo, hp, if_pos h516, invokedDirs, List.filterMap_cons]
        exact List.Sublist.cons d' ih
      · by_cases hex : env.pathExists d' = true
        · by_cases hbin : env.binExists = true
          · have htr : metaBatchGo env (d' :: ds) =
                metaDeleteEvents d' (env.derived d') ++
                  MEvent.invoke d' ep (env.lastSlotInEpoch ep)
                      (env.exitCode ep) ::
                    metaBatchGo env ds := by
              simp [metaBatchGo, hp, h516, hex, hbin]
            rw [htr, invokedDirs_append, invokedDirs_metaDeleteEvents]
            simp only [List.nil_append, invokedDirs, List.filterMap_cons]
            exact List.Sublist.cons₂ d' ih
          · simp only [Bool.not_eq_true] at hbin
            have htr : metaBatchGo env (d' :: ds) =
                metaDeleteEvents d' (env.derived d') ++
                  [MEvent.exitBinMissing] := by
              simp [metaBatchGo, hp, h516, hex, hbin]
            rw [htr, invokedDirs_append, invokedDirs_metaDeleteEvents]
            simp [invokedDirs]
        · simp only [Bool.not_eq_true] at hex
          have htr : metaBatchGo env (d' :: ds) =
              MEvent.skipMissing ep :: metaBatchGo env ds := by
            simp [metaBatchGo, hp, h516, hex]
          rw [htr]
          simp only [invokedDirs, List.filterMap_cons]
          exact List.Sublist.cons d' ih

/-! ## Lemmas about the generate_all_stats.py batch loop -/

theorem digitChar_ne_dash (m : Nat) (hm : m < 10) : Nat.digitChar m ≠ '-' := by
  interval_cases m <;> decide

theorem dash_not_mem_toDigitsCore :
    ∀ (fuel n : Nat) (ds : List Char), '-' ∉ ds →
      '-' ∉ Nat.toDigitsCore 10 fuel n ds
  | 0, _, _, h => h
  | fuel + 1, n, ds, h => by
    have hd : ('-' : Char) ∉ (Nat.digitChar (n % 10) :: ds) := by
      intro hmem
      rcases List.mem_cons.mp hmem with heq | hmem2
      · exact digitChar_ne_dash (n % 10) (Nat.mod_lt n (by decide)) heq.symm
      · exact h hmem2
    by_cases hz : n / 10 = 0
    · simpa [Nat.toDigitsCore, hz] using hd
    · simpa [Nat.toDigitsCore, hz] using
        dash_not_mem_toDigitsCore fuel (n / 10) (Nat.digitChar (n % 10) :: ds) hd

theorem natRepr_ne_flag (n : Nat) :
    Nat.repr n ≠ "--use-live-price-fallback" := by
  intro h
  have hmem : ('-' : Char) ∈ (Nat.repr n).data := by
    rw [h]; decide
  exact dash_not_mem_toDigitsCore (n + 1) n [] (by simp) hmem

theorem statsOutPath_head (e : Nat) : (statsOutPath e).data.head? = some '/' := rfl

theorem statsOutPath_ne_flag (e : Nat) :
    statsOutPath e ≠ "--use-live-price-fallback" := by
  intro h
  have h2 : (statsOutPath e).data.head? =
      ("--use-live-price-fallback" : String).data.head? := by rw [h]
  rw [statsOutPath_head e] at h2
  exact absurd h2 (by decide)

theorem flag_mem_statsCmd (e : Nat) (b : Bool) :
    ("--use-live-price-fallback" ∈ statsCmd e b) ↔ b = true := by
  constructor
  · intro h
    cases b
    · simp only [statsCmd, if_neg Bool.false_ne_true, List.append_nil,
        List.mem_cons, List.not_mem_nil, or_false] at h
      rcases h with h | h | h | h | h | h | h
      · exact absurd h (by decide)
      · exact absurd h (by decide)
      · exact absurd h (by decide)
      · exact absurd h (by decide)
      · exact (statsOutPath_ne_flag e h.symm).elim
      · exact absurd h (by decide)
      · exact (natRepr_ne_flag e h.symm).elim
    · rfl
  · intro hb
    subst hb
    simp [statsCmd]

theorem statsBatchGo_invoke_mem {env : StatsEnv} :
    ∀ {l : List String} {e : Nat} {cmd : List String} {c : Int},
      SEvent.invoke e cmd c ∈ statsBatchGo env l →
      cmd = statsCmd e ((e : Int) == (env.liveEpoch : Int) - 1) ∧
        env.binExists = true ∧ c = env.exitCode e ∧
        ∃ f ∈ l, metasFileEpoch f = some e := by
  intro l
  induction l with
  | nil => intro e cmd c h; cases h
  | cons f fs ih =>
    intro e cmd c h
    cases hp : metasFileEpoch f with
    | none =>
      simp only [statsBatchGo, hp] at h
      obtain ⟨h1, h2, h3, g, hg, hge⟩ := ih h
      exact ⟨h1, h2, h3, g, List.mem_cons_of_mem _ hg, hge⟩
    | some ep =>
      by_cases hbin : env.binExists = true
      · simp [statsBatchGo, hp, hbin] at h
        rcases h with ⟨rfl, rfl, rfl⟩ | h2
        · exact ⟨rfl, hbin, rfl, f, List.mem_cons_self _ _, hp⟩
        · obtain ⟨h1, h2, h3, g, hg, hge⟩ := ih h2
          exact ⟨h1, h2, h3, g, List.mem_cons_of_mem _ hg, hge⟩
      · simp only [Bool.not_eq_true] at hbin
        simp [statsBatchGo, hp, hbin] at h

theorem statsBatchGo_no_report (env : StatsEnv) :
    ∀ (l : List String) (e : Nat),
      SEvent.reportGeneratorFailed e ∉ statsBatchGo env l := by
  intro l
  induction l with
  | nil => intro e h; cases h
  | cons f fs ih =>
    intro e h
    cases hp : metasFileEpoch f with
    | none =>
      simp only [statsBatchGo, hp] at h
      exact ih e h
    | some ep =>
      by_cases hbin : env.binExists = true
      · simp [statsBatchGo, hp, hbin] at h
        exact ih e h
      · simp only [Bool.not_eq_true] at hbin
        simp [statsBatchGo, hp, hbin] at h

theorem statsBatchGo_scrub (env : StatsEnv) (f g : Nat → Int) :
    ∀ l : List String,
      (statsBatchGo { env with exitCode := f } l).map scrubExitS =
        (statsBatchGo { env with exitCode := g } l).map scrubExitS := by
  intro l
  induction l with
  | nil => rfl
  | cons fn fs ih =>
    cases hp : metasFileEpoch fn with
    | none =>
      simp only [statsBatchGo, hp]
      exact ih
    | some ep =>
      by_cases hbin : env.binExists = true
      · have htrf : statsBatchGo { env with exitCode := f } (fn :: fs) =
            SEvent.invoke ep
                (statsCmd ep ((ep : Int) == (env.liveEpoch : Int) - 1)) (f ep) ::
              statsBatchGo { env with exitCode := f } fs := by
          simp [statsBatchGo, hp, hbin]
        have htrg : statsBatchGo { env with exitCode := g } (fn :: fs) =
            SEvent.invoke ep
                (statsCmd ep ((ep : Int) == (env.liveEpoch : Int) - 1)) (g ep) ::
              statsBatchGo { env with exitCode := g } fs := by
          simp [statsBatchGo, hp, hbin]
        rw [htrf, htrg, List.map_cons, List.map_cons, ih]
        rfl
      · simp only [Bool.not_eq_true] at hbin
        have htrf : statsBatchGo { env with exitCode := f } (fn :: fs) =
            [SEvent.exitBinMissing] := by
          simp [statsBatchGo, hp, hbin]
        have htrg : statsBatchGo { env with exitCode := g } (fn :: fs) =
            [SEvent.exitBinMissing] := by
          simp [statsBatchGo, hp, hbin]
        rw [htrf, htrg]

/-! ## Claim theorems -/

/-- C1: evaluation at the failing input.  With one published stats file,
upload_stats.py uploads the stats blob, grants it public read, uploads
the manifest blob, and then lines 49-50 grant public read on the loop
variable blob -- the stats blob -- a second time; no public-read grant
is ever issued for the manifest blob, contradicting the claim (and the
spec) that every uploaded object, the manifest included, is made
public-read before the run completes. -/
theorem C1_manifest_never_public :
    uploadStatsMain ["stats_516.json"] =
        [UpEvent.uploadFile "stake_pool_data/stats_516.json",
         UpEvent.grantRead "stake_pool_data/stats_516.json",
         UpEvent.uploadManifestBlob "stake_pool_data/manifest.json"
           (some 516) [516],
         UpEvent.grantRead "stake_pool_data/stats_516.json"] ∧
      UpEvent.grantRead "stake_pool_data/manifest.json" ∉
        uploadStatsMain ["stats_516.json"] := by
  exact ⟨by decide, by decide⟩

/-- C10: when no file in the output directory matches
stats_<epoch>.json, upload_stats.py uploads a manifest with latest =
null and epochs = [] and then terminates with an unhandled NameError at
the final ACL-grant statements, because the per-file loop never bound
the variable blob. -/
theorem C10_empty_listing_name_error (listing : List String)
    (h : ∀ f ∈ listing, statsFileEpoch f = none) :
    uploadStatsMain listing =
      [UpEvent.uploadManifestBlob "stake_pool_data/manifest.json" none [],
       UpEvent.nameErrorAbort] := by
  have h' : ∀ f ∈ sortStrings listing, statsFileEpoch f = none :=
    fun f hf => h f (mem_sortStrings.mp hf)
  simp only [uploadStatsMain]
  rw [uploadLoop_eq_of_no_match _ _ _ h']
  rfl

/-- C10 witness: the empty-manifest-then-NameError run on a listing
holding only a non-matching file. -/
theorem C10_witness :
    uploadStatsMain ["notes.txt"] =
      [UpEvent.uploadManifestBlob "stake_pool_data/manifest.json" none [],
       UpEvent.nameErrorAbort] :=
  C10_empty_listing_name_error ["notes.txt"] (by decide)

/-- C7: the manifest built by upload_stats.py has epochs whose members
are exactly the epochs parsed from the listing, latest = none exactly
when epochs is empty, latest equal to the maximum of epochs when one
exists, and both latest and the epoch set are independent of the
storage listing order. -/
theorem C7_manifest_latest_max (listing listing' : List String)
    (hperm : List.Perm listing listing') :
    (∀ e, e ∈ (manifestOf listing).epochs ↔
        ∃ f ∈ listing, statsFileEpoch f = some e) ∧
      ((manifestOf listing).latest = none ↔
        (manifestOf listing).epochs = []) ∧
      (∀ l, (manifestOf listing).latest = some l →
        l ∈ (manifestOf listing).epochs ∧
          ∀ e ∈ (manifestOf listing).epochs, e ≤ l) ∧
      (manifestOf listing).latest = (manifestOf listing').latest ∧
      (∀ e, e ∈ (manifestOf listing).epochs ↔
        e ∈ (manifestOf listing').epochs) := by
  have hman : ∀ L : List String, manifestOf L =
      ((sortStrings L).filterMap statsFileEpoch).foldl manifestStep
        { latest := none, epochs := [] } :=
    fun L => uploadLoop_manifest _ _ _
  have heps : ∀ L : List String, (manifestOf L).epochs =
      (sortStrings L).filterMap statsFileEpoch := by
    intro L
    rw [hman L, foldl_manifestStep_epochs]
    simp
  have hmem : ∀ (L : List String) (e : Nat),
      e ∈ (manifestOf L).epochs ↔ ∃ f ∈ L, statsFileEpoch f = some e := by
    intro L e
    rw [heps L, List.mem_filterMap]
    constructor
    · rintro ⟨f, hf, hfe⟩
      exact ⟨f, mem_sortStrings.mp hf, hfe⟩
    · rintro ⟨f, hf, hfe⟩
      exact ⟨f, mem_sortStrings.mpr hf, hfe⟩
  have hnone : ∀ L : List String,
      (manifestOf L).latest = none ↔ (manifestOf L).epochs = [] := by
    intro L
    rw [hman L, foldl_manifestStep_latest_none, foldl_manifestStep_epochs]
    simp
  have hsome : ∀ (L : List String) (l : Nat), (manifestOf L).latest = some l →
      l ∈ (manifestOf L).epochs ∧ ∀ e ∈ (manifestOf L).epochs, e ≤ l := by
    intro L l hl
    rw [hman L] at hl
    obtain ⟨hub, _, hmem'⟩ := foldl_manifestStep_latest_le _ _ _ hl
    rcases hmem' with h' | h'
    · refine ⟨by rw [heps L]; exact h', ?_⟩
      intro e he
      rw [heps L] at he
      exact hub e he
    · cases h'
  have hmemeq : ∀ e, e ∈ (manifestOf listing).epochs ↔
      e ∈ (manifestOf listing').epochs := by
    intro e
    rw [hmem listing e, hmem listing' e]
    constructor
    · rintro ⟨f, hf, hfe⟩
      exact ⟨f, hperm.mem_iff.mp hf, hfe⟩
    · rintro ⟨f, hf, hfe⟩
      exact ⟨f, hperm.mem_iff.mpr hf, hfe⟩
  have hlat : (manifestOf listing).latest = (manifestOf listing').latest := by
    cases h1 : (manifestOf listing).latest with
    | none =>
      cases h2 : (manifestOf listing').latest with
      | none => rfl
      | some l2 =>
        obtain ⟨hin2, _⟩ := hsome listing' l2 h2
        have hmm : l2 ∈ (manifestOf listing).epochs := (hmemeq l2).mpr hin2
        rw [(hnone listing).mp h1] at hmm
        cases hmm
    | some l1 =>
      obtain ⟨hin1, hub1⟩ := hsome listing l1 h1
      cases h2 : (manifestOf listing').latest with
      | none =>
        have hmm : l1 ∈ (manifestOf listing').epochs := (hmemeq l1).mp hin1
        rw [(hnone listing').mp h2] at hmm
        cases hmm
      | some l2 =>
        obtain ⟨hin2, hub2⟩ := hsome listing' l2 h2
        have h12 : l1 ≤ l2 := hub2 l1 ((hmemeq l1).mp hin1)
        have h21 : l2 ≤ l1 := hub1 l2 ((hmemeq l2).mpr hin2)
        rw [le_antisymm h12 h21]
  exact ⟨hmem listing, hnone listing, hsome listing, hlat, hmemeq⟩

/-- C7 witness: published epochs 516, 517, 519 in two listing orders
give the same latest, namely 519, and the same epoch set. -/
theorem C7_witness :
    (manifestOf ["stats_519.json", "stats_516.json", "stats_517.json"]).latest =
        (manifestOf
          ["stats_517.json", "stats_516.json", "stats_519.json"]).latest ∧
      (manifestOf
          ["stats_519.json", "stats_516.json", "stats_517.json"]).latest =
        some 519 ∧
      ∀ e,
        e ∈ (manifestOf
            ["stats_519.json", "stats_516.json", "stats_517.json"]).epochs ↔
        e ∈ (manifestOf
            ["stats_517.json", "stats_516.json", "stats_519.json"]).epochs := by
  have h := C7_manifest_latest_max
    ["stats_519.json", "stats_516.json", "stats_517.json"]
    ["stats_517.json", "stats_516.json", "stats_519.json"] (by decide)
  exact ⟨h.2.2.2.1, by decide, h.2.2.2.2⟩

/-- C4: among the size-filtered candidates, find_jito_snapshot returns
the first candidate in listing order whose name contains the preferred
warehouse tag, falling back to the first surviving candidate if none is
tagged; and on the 5 GB / 11 GB-other / 12 GB-preferred example it
selects the 12 GB preferred candidate in every listing order. -/
theorem C4_selection_policy :
    (∀ (found : List Blob) (first : Blob) (rest : List Blob),
        sizeFiltered found = first :: rest →
        ∃ chosen,
          findJitoSnapshot found =
            some (lastSegment chosen.name, chosen.mediaLink) ∧
          ((sizeFiltered found).find?
              (fun b => strContains b.name JITO_PREFERRED_WAREHOUSE) =
                some chosen ∨
            ((sizeFiltered found).find?
                (fun b => strContains b.name JITO_PREFERRED_WAREHOUSE) =
                  none ∧
              chosen = first))) ∧
      ∀ l : List Blob, List.Perm l [exBlobSmall, exBlobOther, exBlobPref] →
        findJitoSnapshot l =
          some ("snapshot-250000000-CCC.tar.zst", "url-pref") := by
  constructor
  · intro found first rest hf
    cases hfind : (sizeFiltered found).find?
        (fun b => strContains b.name JITO_PREFERRED_WAREHOUSE) with
    | some b =>
      refine ⟨b, ?_, Or.inl rfl⟩
      rw [hf] at hfind
      simp [findJitoSnapshot, hf, selectSnapshotBlob_eq, hfind]
    | none =>
      refine ⟨first, ?_, Or.inr ⟨rfl, rfl⟩⟩
      rw [hf] at hfind
      simp [findJitoSnapshot, hf, selectSnapshotBlob_eq, hfind]
  · intro l hperm
    have h1 : List.Perm (sizeFiltered l)
        (sizeFiltered [exBlobSmall, exBlobOther, exBlobPref]) :=
      hperm.filter _
    rw [show sizeFiltered [exBlobSmall, exBlobOther, exBlobPref] =
        [exBlobOther, exBlobPref] from by decide] at h1
    have hfind : (sizeFiltered l).find?
        (fun b => strContains b.name JITO_PREFERRED_WAREHOUSE) =
          some exBlobPref := by
      apply find?_eq_some_of_unique
      · exact h1.mem_iff.mpr (by decide)
      · decide
      · intro y hy hpy
        have hy2 : y ∈ [exBlobOther, exBlobPref] := h1.mem_iff.mp hy
        rcases List.mem_cons.mp hy2 with rfl | hy3
        · exact absurd hpy (by decide)
        · rcases List.mem_cons.mp hy3 with rfl | hy4
          · rfl
          · cases hy4
    obtain ⟨first, rest, hfr⟩ : ∃ first rest,
        sizeFiltered l = first :: rest := by
      cases hsf : sizeFiltered l with
      | nil =>
        have hlen : (sizeFiltered l).length =
            ([exBlobOther, exBlobPref] : List Blob).length := h1.length_eq
        rw [hsf] at hlen
        cases hlen
      | cons a t => exact ⟨a, t, rfl⟩
    rw [hfr] at hfind
    simp [findJitoSnapshot, hfr, selectSnapshotBlob_eq, hfind]
    decide

/-- C4 witness: the selection theorem applied to the permutation
example and to a concrete filtered listing with head exBlobOther. -/
theorem C4_witness :
    findJitoSnapshot [exBlobSmall, exBlobOther, exBlobPref] =
        some ("snapshot-250000000-CCC.tar.zst", "url-pref") ∧
      ∃ chosen,
        findJitoSnapshot [exBlobSmall, exBlobOther] =
          some (lastSegment chosen.name, chosen.mediaLink) ∧
        ((sizeFiltered [exBlobSmall, exBlobOther]).find?
            (fun b => strContains b.name JITO_PREFERRED_WAREHOUSE) =
              some chosen ∨
          ((sizeFiltered [exBlobSmall, exBlobOther]).find?
              (fun b => strContains b.name JITO_PREFERRED_WAREHOUSE) =
                none ∧
            chosen = exBlobOther)) :=
  ⟨C4_selection_policy.2 _ (List.Perm.refl _),
   C4_selection_policy.1 [exBlobSmall, exBlobOther] exBlobOther [] (by decide)⟩

/-- C5 as stated is false at a candidate of size exactly
10_000_000_000 bytes: its size is at least 10 GB, yet the filter
discards it and the locator fails with NoSnapshotFoundError instead of
selecting it. -/
theorem C5_counterexample :
    10000000000 ≤ exBlobTenGB.size ∧
      exBlobTenGB ∉ sizeFiltered [exBlobTenGB] ∧
      findJitoSnapshot [exBlobTenGB] = none := by decide

/-- C5 amended: a candidate is retained by the size filter iff its size
strictly exceeds 10 GB (10_000_000_000 bytes), and the locator fails
with NoSnapshotFoundError exactly when no candidate survives the
filter. -/
theorem C5_size_floor_strict (found : List Blob) (b : Blob) :
    (b ∈ sizeFiltered found ↔ b ∈ found ∧ 10000000000 < b.size) ∧
      (findJitoSnapshot found = none ↔ sizeFiltered found = []) := by
  refine ⟨mem_sizeFiltered, ?_, ?_⟩
  · intro h
    cases hsf : sizeFiltered found with
    | nil => rfl
    | cons a t => simp [findJitoSnapshot, hsf] at h
  · intro h
    simp [findJitoSnapshot, h]

/-- C8: the derived-artifact purge never raises (every removal is
guarded by the existence checks), running it twice returns exactly the
state of running it once with no error on the second run, the resulting
workspace holds no derived artifact (no rocksdb directory, no accounts
directory, no genesis.bin file), and on a workspace already free of
derived artifacts each removal is a no-op. -/
theorem C8_resetDerived_idempotent (w : Workspace) :
    resetDerivedE w = Except.ok (resetDerived w) ∧
      resetDerivedE (resetDerived w) = Except.ok (resetDerived w) ∧
      (resetDerived w).rocksdb ≠ FsEntry.dir ∧
      (resetDerived w).accounts ≠ FsEntry.dir ∧
      (resetDerived w).genesisBin ≠ FsEntry.file ∧
      ((w.rocksdb ≠ FsEntry.dir ∧ w.accounts ≠ FsEntry.dir ∧
          w.genesisBin ≠ FsEntry.file) → resetDerivedE w = Except.ok w) := by
  obtain ⟨r, a, g⟩ := w
  cases r <;> cases a <;> cases g <;> decide

/-- C8 witness: on a workspace whose rocksdb path is a stray regular
file and whose other derived paths are absent, the purge is an
error-free no-op. -/
theorem C8_witness :
    resetDerivedE
        { rocksdb := FsEntry.file, accounts := FsEntry.absent,
          genesisBin := FsEntry.absent } =
      Except.ok
        { rocksdb := FsEntry.file, accounts := FsEntry.absent,
          genesisBin := FsEntry.absent } :=
  (C8_resetDerived_idempotent
    { rocksdb := FsEntry.file, accounts := FsEntry.absent,
      genesisBin := FsEntry.absent }).2.2.2.2.2 (by decide)

/-- C9: in a batch meta run with the generator binary present, a
directory parsing to an epoch below 516 yields a skip event, no
deletion or invocation event ever names that directory, and every
eligible directory (epoch at least 516, workspace present) is still
invoked with its slot and exit code. -/
theorem C9_skip_below_min (env : MetaEnv) (dirs : List String) (d : String)
    (e : Nat) (hbin : env.binExists = true) (hmem : d ∈ dirs)
    (hp : epochDirEpoch d = some e) (h516 : e < 516) :
    MEvent.skipUnsupported e ∈ metaBatch env dirs ∧
      (∀ ev ∈ metaBatch env dirs, ev.dirName? ≠ some d) ∧
      (∀ d' e', d' ∈ dirs → epochDirEpoch d' = some e' → ¬ e' < 516 →
        env.pathExists d' = true →
        MEvent.invoke d' e' (env.lastSlotInEpoch e') (env.exitCode e') ∈
          metaBatch env dirs) := by
  refine ⟨?_, ?_, ?_⟩
  · exact metaBatchGo_skip_mem hbin (mem_sortStrings.mpr hmem) hp h516
  · intro ev hev hd
    obtain ⟨e', _, hp', h516', _⟩ := metaBatchGo_dirName hev hd
    rw [hp] at hp'
    exact h516' (Option.some.inj hp' ▸ h516)
  · intro d' e' hmem' hp' h516' hex'
    exact metaBatchGo_invoke_of hbin (mem_sortStrings.mpr hmem') hp' h516' hex'

/-- C9 witness: with directories for epochs 100 and 517 present, epoch
100 is skipped (no event names its directory -- implied by the theorem)
while epoch 517 is invoked. -/
theorem C9_witness :
    MEvent.skipUnsupported 100 ∈
        metaBatch metaEnvA ["epoch_100", "epoch_517"] ∧
      MEvent.invoke "epoch_517" 517 (metaEnvA.lastSlotInEpoch 517)
          (metaEnvA.exitCode 517) ∈
        metaBatch metaEnvA ["epoch_100", "epoch_517"] := by
  have h := C9_skip_below_min metaEnvA ["epoch_100", "epoch_517"] "epoch_100"
    100 rfl (by decide) (by decide) (by decide)
  exact ⟨h.1, h.2.2 "epoch_517" 517 (by decide) (by decide) (by decide) rfl⟩

/-- C3 as stated is false: with workspaces for epochs 517 and 1000
present, generate_all_metas.py sorts the directory names as strings, so
epoch 1000 is invoked before epoch 517 -- the processing order is not
ascending numeric epoch order. -/
theorem C3_counterexample :
    invokedEpochs (metaBatch metaEnvA ["epoch_517", "epoch_1000"]) =
        [1000, 517] ∧
      ¬ List.Sorted (fun a b : Nat => a ≤ b)
          (invokedEpochs (metaBatch metaEnvA ["epoch_517", "epoch_1000"])) := by
  constructor
  · decide
  · decide

/-- C3 amended: batch meta generation processes directories in
ascending lexicographic (code-point) order of their directory names,
Python's string sort; with the binary present, the invoked directories
are exactly those that parse to an epoch at least 516 and whose
workspace exists.  Lexicographic order of epoch_<n> names agrees with
numeric epoch order only for epochs with equally many digits. -/
theorem C3_lexicographic_order (env : MetaEnv) (dirs : List String)
    (hbin : env.binExists = true) :
    List.Sorted (fun a b => strLe a b = true)
        (invokedDirs (metaBatch env dirs)) ∧
      ∀ d, d ∈ invokedDirs (metaBatch env dirs) ↔
        ∃ e, d ∈ dirs ∧ epochDirEpoch d = some e ∧ ¬ e < 516 ∧
          env.pathExists d = true := by
  constructor
  · exact List.Pairwise.sublist
      (invokedDirs_metaBatchGo_sublist env (sortStrings dirs))
      (sortStrings_sorted dirs)
  · intro d
    constructor
    · intro hd
      obtain ⟨ev, hev, hevd⟩ := List.mem_filterMap.mp hd
      have hdn : ev.dirName? = some d := by
        cases ev <;> simp_all [MEvent.dirName?]
      obtain ⟨e, hmem, hp, h516, hex⟩ := metaBatchGo_dirName hev hdn
      exact ⟨e, mem_sortStrings.mp hmem, hp, h516, hex⟩
    · rintro ⟨e, hmem, hp, h516, hex⟩
      have hin := metaBatchGo_invoke_of hbin (mem_sortStrings.mpr hmem) hp
        h516 hex
      exact List.mem_filterMap.mpr ⟨_, hin, rfl⟩

/-- C3 amended witness: the invoked-directory sequence of the 517/1000
batch is lexicographically sorted and invokes epoch_1000's
directory. -/
theorem C3_witness :
    List.Sorted (fun a b => strLe a b = true)
        (invokedDirs (metaBatch metaEnvA ["epoch_517", "epoch_1000"])) ∧
      "epoch_1000" ∈
        invokedDirs (metaBatch metaEnvA ["epoch_517", "epoch_1000"]) := by
  have h := C3_lexicographic_order metaEnvA ["epoch_517", "epoch_1000"] rfl
  exact ⟨h.1, (h.2 "epoch_1000").mpr ⟨1000, by decide, by decide, by decide, rfl⟩⟩

/-- C2 as stated is false: with every generator run exiting with status
7, the batch records the non-zero exit statuses on its invocations but
emits no GeneratorFailedError report anywhere, and still proceeds
through both epochs. -/
theorem C2_counterexample :
    metaBatch metaEnvFail ["epoch_517", "epoch_518"] =
        [MEvent.invoke "epoch_517" 517 (metaEnvFail.lastSlotInEpoch 517) 7,
         MEvent.invoke "epoch_518" 518 (metaEnvFail.lastSlotInEpoch 518) 7] ∧
      (∀ e, MEvent.reportGeneratorFailed e ∉
        metaBatch metaEnvFail ["epoch_517", "epoch_518"]) ∧
      (7 : Int) ≠ 0 :=
  ⟨by decide, fun e => metaBatchGo_no_report metaEnvFail _ e, by decide⟩

/-- C2 amended: each generator invocation runs synchronously, but the
batch scripts never inspect its exit status: no GeneratorFailedError
style report is ever emitted, and -- up to the recorded exit codes --
the trace is unchanged under any reassignment of generator exit codes,
so a failing generator never aborts the batch and is handled exactly
like a succeeding one. -/
theorem C2_exit_code_ignored (menv : MetaEnv) (dirs : List String)
    (senv : StatsEnv) (files : List String) (f g : Nat → Int) :
    (∀ e, MEvent.reportGeneratorFailed e ∉ metaBatch menv dirs) ∧
      (∀ e, SEvent.reportGeneratorFailed e ∉ statsBatch senv files) ∧
      (metaBatch { menv with exitCode := f } dirs).map scrubExitM =
        (metaBatch { menv with exitCode := g } dirs).map scrubExitM ∧
      (statsBatch { senv with exitCode := f } files).map scrubExitS =
        (statsBatch { senv with exitCode := g } files).map scrubExitS :=
  ⟨fun e => metaBatchGo_no_report menv _ e,
   fun e => statsBatchGo_no_report senv _ e,
   metaBatchGo_scrub menv f g _,
   statsBatchGo_scrub senv f g _⟩

/-- C6: in every batch stats run, the command line of the invocation
for epoch e contains --use-live-price-fallback iff e equals the live
epoch (queried once at batch start and held fixed) minus one. -/
theorem C6_live_price_fallback (env : StatsEnv) (files : List String)
    (e : Nat) (cmd : List String) (c : Int)
    (h : SEvent.invoke e cmd c ∈ statsBatch env files) :
    ("--use-live-price-fallback" ∈ cmd) ↔
      (e : Int) = (env.liveEpoch : Int) - 1 := by
  obtain ⟨hcmd, _, _, _⟩ := statsBatchGo_invoke_mem h
  subst hcmd
  rw [flag_mem_statsCmd]
  exact beq_iff_eq

/-- C6 witness: with live epoch 518, the invocation for epoch 517
carries the flag, and 517 = 518 - 1. -/
theorem C6_witness :
    ("--use-live-price-fallback" ∈ statsCmd 517 true) ∧
      (517 : Int) = (statsEnvA.liveEpoch : Int) - 1 := by
  have h := C6_live_price_fallback statsEnvA ["stake_pool_metas_517.json"] 517
    (statsCmd 517 true) 0 (by decide)
  exact ⟨h.mpr (by decide), by decide⟩
